import Mathlib

/-!
# Verification of the repo-reader indexing and hybrid retrieval subsystem

Shallow embedding of the core of `api/tools/tidb_vector_store_fixed.py`
(`TiDBVectorStore`), `api/tools/code_indexer.py` (`CodeIndexerTool`,
`CodeSearchTool`) and `api/tools/rag_query_tool.py` (`RAGQueryTool`).

Python strings are modelled as Lean `String` (a wrapped `List Char`, matching
Python's code-point semantics for `len` and slicing); Python floats as `ℚ`;
the database table `code_embeddings` as a list of rows; the external
embedding model and the store's cosine-distance operator as function
parameters.
-/

namespace RepoReader

/-- Python's `content.split('\n')`: split the character sequence on `'\n'`.
(`''.split('\n') == ['']`, matching `List.splitOn` which yields `[[]]`.) -/
def pySplitLines (s : String) : List String :=
  (List.splitOn '\n' s.data).map String.mk

/-- Python's `'\n'.join(lines)`. -/
def pyJoinNL (l : List String) : String :=
  String.mk (List.intercalate ['\n'] (l.map String.data))

/-- Python's `s[:n]` slice (per code point, as in Python). -/
def pySlice (s : String) (n : Nat) : String :=
  String.mk (s.data.take n)

/-- One element of the list returned by `TiDBVectorStore.chunk_code_file`. -/
structure Chunk where
  chunk_id : String
  content : String
  start_line : Int
  end_line : Int
  file_path : String
deriving Repr, DecidableEq

/-- The `for line_num, line in enumerate(lines)` loop of
`TiDBVectorStore.chunk_code_file`, with the loop state made explicit:
remaining lines, `line_num`, `current_chunk`, `current_size`, `chunk_num`.
Closing the buffer happens when the accumulated size (each line length plus
one for the newline) reaches `chunk_size` or the last line was consumed
(`rest = []` models `line_num == len(lines) - 1`); the Python guard
`if current_chunk:` is kept as the (always-true) nonemptiness test. -/
def chunkAux (chunk_size : Nat) (file_path : String) :
    List String → Nat → List String → Nat → Nat → List Chunk
  | [], _, _, _, _ => []
  | line :: rest, line_num, current_chunk, current_size, chunk_num =>
    let cur := current_chunk ++ [line]
    let size := current_size + line.length + 1
    if size ≥ chunk_size ∨ rest = [] then
      if cur = [] then
        chunkAux chunk_size file_path rest (line_num + 1) cur size chunk_num
      else
        { chunk_id := "chunk_" ++ Nat.repr chunk_num,
          content := pyJoinNL cur,
          start_line := (line_num : Int) - cur.length + 1,
          end_line := (line_num : Int),
          file_path := file_path } ::
          chunkAux chunk_size file_path rest (line_num + 1) [] 0 (chunk_num + 1)
    else
      chunkAux chunk_size file_path rest (line_num + 1) cur size chunk_num

/-- `TiDBVectorStore.chunk_code_file(content, file_path, chunk_size=1000)`. -/
def chunk_code_file (content : String) (file_path : String)
    (chunk_size : Nat := 1000) : List Chunk :=
  chunkAux chunk_size file_path (pySplitLines content) 0 [] 0 0

end RepoReader

namespace RepoReader

lemma intercalate_cons_cons {α : Type} (sep x y : List α) (l : List (List α)) :
    List.intercalate sep (x :: y :: l) = x ++ sep ++ List.intercalate sep (y :: l) := by
  simp [List.intercalate, List.intersperse]

lemma intercalate_singleton {α : Type} (sep x : List α) :
    List.intercalate sep [x] = x := by
  simp [List.intercalate, List.intersperse]

lemma intercalate_append_ne {α : Type} (sep : List α) :
    ∀ (xs ys : List (List α)), xs ≠ [] → ys ≠ [] →
      List.intercalate sep (xs ++ ys) =
        List.intercalate sep xs ++ sep ++ List.intercalate sep ys := by
  intro xs
  induction xs with
  | nil => intro ys h; exact absurd rfl h
  | cons x xs ih =>
    intro ys _ hys
    cases xs with
    | nil =>
      cases ys with
      | nil => exact absurd rfl hys
      | cons y ys' =>
        rw [List.singleton_append, intercalate_cons_cons, intercalate_singleton]
    | cons x' xs' =>
      have hih := ih ys (by simp) hys
      calc List.intercalate sep ((x :: x' :: xs') ++ ys)
          = List.intercalate sep (x :: x' :: (xs' ++ ys)) := by simp
        _ = x ++ sep ++ List.intercalate sep (x' :: (xs' ++ ys)) :=
            intercalate_cons_cons sep x x' (xs' ++ ys)
        _ = x ++ sep ++ List.intercalate sep ((x' :: xs') ++ ys) := by
            rw [List.cons_append]
        _ = x ++ sep ++ (List.intercalate sep (x' :: xs') ++ sep ++
              List.intercalate sep ys) := by rw [hih]
        _ = (x ++ sep ++ List.intercalate sep (x' :: xs')) ++ sep ++
              List.intercalate sep ys := by simp [List.append_assoc]
        _ = List.intercalate sep (x :: x' :: xs') ++ sep ++
              List.intercalate sep ys := by rw [intercalate_cons_cons]

/-- Master invariant of the chunker loop: for a nonempty remainder, the
produced chunks start where the pending buffer starts, end at the last
remaining line, have `start_line ≤ end_line`, are contiguous, are numbered
consecutively from `chunk_num`, and newline-joining their contents
reconstructs the newline-join of the pending and remaining lines. -/
lemma chunkAux_master (csz : Nat) (fp : String) (rest : List String) :
    ∀ (ln : Nat) (cur : List String) (cs0 cn : Nat),
      rest ≠ [] → cur.length ≤ ln →
      ((chunkAux csz fp rest ln cur cs0 cn).head?.map Chunk.start_line
          = some ((ln : Int) - cur.length)) ∧
      ((chunkAux csz fp rest ln cur cs0 cn).getLast?.map Chunk.end_line
          = some ((ln : Int) + rest.length - 1)) ∧
      (∀ c ∈ chunkAux csz fp rest ln cur cs0 cn, c.start_line ≤ c.end_line) ∧
      List.Chain' (fun a b => b.start_line = a.end_line + 1)
        (chunkAux csz fp rest ln cur cs0 cn) ∧
      ((chunkAux csz fp rest ln cur cs0 cn).map Chunk.chunk_id
          = (List.range' cn (chunkAux csz fp rest ln cur cs0 cn).length).map
              (fun i => "chunk_" ++ Nat.repr i)) ∧
      (List.intercalate ['\n']
          ((chunkAux csz fp rest ln cur cs0 cn).map (fun c => c.content.data))
          = List.intercalate ['\n'] ((cur ++ rest).map String.data)) := by
  induction rest with
  | nil => intro ln cur cs0 cn h; exact absurd rfl h
  | cons line rest ih =>
    intro ln cur cs0 cn _ hlen
    by_cases hclose : cs0 + line.length + 1 ≥ csz ∨ rest = []
    · -- the buffer is closed after this line
      have hne : cur ++ [line] ≠ [] := by simp
      have hstep : chunkAux csz fp (line :: rest) ln cur cs0 cn =
          { chunk_id := "chunk_" ++ Nat.repr cn,
            content := pyJoinNL (cur ++ [line]),
            start_line := (ln : Int) - (cur ++ [line]).length + 1,
            end_line := (ln : Int),
            file_path := fp } ::
            chunkAux csz fp rest (ln + 1) [] 0 (cn + 1) := by
        rw [chunkAux, if_pos hclose, if_neg hne]
      cases rest with
      | nil =>
        rw [hstep]
        refine ⟨?_, ?_, ?_, ?_, ?_, ?_⟩
        · simp; omega
        · simp [chunkAux]
        · intro c hc
          simp [chunkAux] at hc
          subst hc
          simp
          omega
        · simp [chunkAux]
        · simp [chunkAux, List.range'_succ]
        · simp [chunkAux, pyJoinNL, intercalate_singleton]
      | cons r rest' =>
        have hrec := ih (ln + 1) [] 0 (cn + 1) (by simp) (by simp)
        obtain ⟨ih1, ih2, ih3, ih4, ih5, ih6⟩ := hrec
        cases htail : chunkAux csz fp (r :: rest') (ln + 1) [] 0 (cn + 1) with
        | nil => rw [htail] at ih1; simp at ih1
        | cons t0 ts =>
          rw [htail] at ih1 ih2 ih3 ih4 ih5 ih6
          rw [hstep, htail]
          refine ⟨?_, ?_, ?_, ?_, ?_, ?_⟩
          · simp; omega
          · rw [List.getLast?_cons_cons, ih2]
            congr 1
            simp only [List.length_cons]
            omega
          · intro c hc
            rcases List.mem_cons.mp hc with h | h
            · subst h; simp; omega
            · exact ih3 c h
          · refine List.Chain'.cons ?_ ih4
            simp at ih1
            simpa using ih1
          · simp only [List.map_cons, List.length_cons, List.range'_succ] at ih5 ⊢
            rw [ih5]
          · simp only [List.map_cons, List.nil_append] at ih6 ⊢
            rw [intercalate_cons_cons, ih6]
            have hsplit : cur ++ line :: r :: rest' =
                (cur ++ [line]) ++ (r :: rest') := by simp
            rw [hsplit, List.map_append,
              intercalate_append_ne _ _ _ (by simp) (by simp)]
            simp [pyJoinNL]
    · -- the buffer keeps accumulating
      have hrest : rest ≠ [] := fun h => hclose (Or.inr h)
      have hstep : chunkAux csz fp (line :: rest) ln cur cs0 cn =
          chunkAux csz fp rest (ln + 1) (cur ++ [line])
            (cs0 + line.length + 1) cn := by
        rw [chunkAux, if_neg hclose]
      have hrec := ih (ln + 1) (cur ++ [line]) (cs0 + line.length + 1) cn hrest
        (by simp; omega)
      obtain ⟨ih1, ih2, ih3, ih4, ih5, ih6⟩ := hrec
      rw [hstep]
      refine ⟨?_, ?_, ?_, ?_, ?_, ?_⟩
      · rw [ih1]
        congr 1
        simp only [List.length_append, List.length_cons, List.length_nil]
        push_cast
        omega
      · rw [ih2]
        congr 1
        simp only [List.length_cons]
        push_cast
        omega
      · exact ih3
      · exact ih4
      · exact ih5
      · rw [ih6]; congr 1; simp

lemma pySplitLines_ne_nil (s : String) : pySplitLines s ≠ [] := by
  simp only [pySplitLines, List.splitOn]
  intro h
  rw [List.map_eq_nil_iff] at h
  exact List.splitOnP_ne_nil _ _ h

lemma chunk_contents_join (content fp : String) (csz : Nat) :
    List.intercalate ['\n']
        ((chunk_code_file content fp csz).map (fun c => c.content.data)) =
      content.data := by
  have h := (chunkAux_master csz fp (pySplitLines content) 0 [] 0 0
    (pySplitLines_ne_nil content) (by simp)).2.2.2.2.2
  rw [List.nil_append] at h
  rw [chunk_code_file, h]
  have hmaps : (pySplitLines content).map String.data =
      List.splitOn '\n' content.data := by
    simp only [pySplitLines, List.map_map]
    show List.map id _ = _
    rw [List.map_id]
  rw [hmaps, List.intercalate_splitOn]

-- sanity examples (spec §8 scenario 1)
example :
    chunk_code_file "def f():\n    pass\n" "a.py" 1000 =
      [{ chunk_id := "chunk_0", content := "def f():\n    pass\n",
         start_line := 0, end_line := 2, file_path := "a.py" }] := by
  decide

example : chunk_code_file "a\nb" "f" 1 =
    [{ chunk_id := "chunk_0", content := "a", start_line := 0, end_line := 0,
       file_path := "f" },
     { chunk_id := "chunk_1", content := "b", start_line := 1, end_line := 1,
       file_path := "f" }] := by
  decide

/-- Sorted insertion used to model an SQL `ORDER BY` / Python `sorted`:
`x` is placed before the first element `y` with `r x y`. With
`r a b = (key a ≤ key b)` this is a stable ascending sort; with
`r a b = (key a ≥ key b)` a stable descending sort. -/
def insertBy {α : Type} (r : α → α → Bool) (x : α) : List α → List α
  | [] => [x]
  | y :: ys => if r x y then x :: y :: ys else y :: insertBy r x ys

/-- Stable insertion sort by the relation `r`. -/
def sortBy {α : Type} (r : α → α → Bool) : List α → List α
  | [] => []
  | x :: xs => insertBy r x (sortBy r xs)

lemma insertBy_perm {α : Type} (r : α → α → Bool) (x : α) :
    ∀ l : List α, List.Perm (insertBy r x l) (x :: l) := by
  intro l
  induction l with
  | nil => simp [insertBy]
  | cons y ys ih =>
    rw [insertBy]
    by_cases h : r x y
    · rw [if_pos h]
    · rw [if_neg h]
      exact List.Perm.trans (List.Perm.cons y ih) (List.Perm.swap x y ys)

lemma sortBy_perm {α : Type} (r : α → α → Bool) :
    ∀ l : List α, List.Perm (sortBy r l) l := by
  intro l
  induction l with
  | nil => simp [sortBy]
  | cons x xs ih =>
    exact List.Perm.trans (insertBy_perm r x _) (List.Perm.cons x ih)

lemma insertBy_pairwise {α : Type} (r : α → α → Bool)
    (htot : ∀ a b, r a b = true ∨ r b a = true)
    (htrans : ∀ a b c, r a b = true → r b c = true → r a c = true) (x : α) :
    ∀ l : List α, List.Pairwise (fun a b => r a b = true) l →
      List.Pairwise (fun a b => r a b = true) (insertBy r x l) := by
  intro l
  induction l with
  | nil => intro; simp [insertBy]
  | cons y ys ih =>
    intro hp
    rw [List.pairwise_cons] at hp
    rw [insertBy]
    by_cases h : r x y
    · rw [if_pos h]
      refine List.Pairwise.cons ?_ (List.Pairwise.cons hp.1 hp.2)
      intro z hz
      rcases List.mem_cons.mp hz with hz | hz
      · subst hz; exact h
      · exact htrans x y z h (hp.1 z hz)
    · rw [if_neg h]
      have hyx : r y x = true := (htot x y).resolve_left (by simpa using h)
      refine List.Pairwise.cons ?_ (ih hp.2)
      intro z hz
      have := (insertBy_perm r x ys).mem_iff.mp hz
      rcases List.mem_cons.mp this with hz' | hz'
      · subst hz'; exact hyx
      · exact hp.1 z hz'

lemma sortBy_pairwise {α : Type} (r : α → α → Bool)
    (htot : ∀ a b, r a b = true ∨ r b a = true)
    (htrans : ∀ a b c, r a b = true → r b c = true → r a c = true) :
    ∀ l : List α, List.Pairwise (fun a b => r a b = true) (sortBy r l) := by
  intro l
  induction l with
  | nil => simp [sortBy]
  | cons x xs ih => exact insertBy_pairwise r htot htrans x _ ih

/-- Claim C2, counterexample: plain concatenation of the chunks' contents does
not reconstruct the input, because the newline separating two chunks is kept
in neither chunk. For `"a\nb"` with `max_chunk_bytes = 1` the chunker yields
contents `["a", "b"]`, whose concatenation is `"ab" ≠ "a\nb"`. -/
theorem chunk_concat_counterexample :
    String.join ((chunk_code_file "a\nb" "f" 1).map Chunk.content) ≠ "a\nb" := by
  decide

/-- Claim C2, amended: for every input text and every `max_chunk_bytes`,
joining all chunks' content with a single newline separator, in order,
reconstructs the original text exactly. -/
theorem chunk_roundtrip_newline_join (content fp : String) (csz : Nat) :
    pyJoinNL ((chunk_code_file content fp csz).map Chunk.content) = content := by
  have h := chunk_contents_join content fp csz
  have h3 : String.mk content.data = content := by cases content; rfl
  have h2 : String.mk (List.intercalate ['\n']
      (List.map (fun c => c.content.data) (chunk_code_file content fp csz))) =
      content := by rw [h, h3]
  rw [pyJoinNL, List.map_map]
  exact h2

/-- Claim C3: every chunk satisfies `start_line ≤ end_line`; the produced
ranges are contiguous and non-overlapping, starting at line 0 and ending at
the last line of the file, hence they cover the file's lines in document
order; and the `chunk_id`s are the consecutive sequence numbers
`chunk_0, chunk_1, …` starting at 0. -/
theorem chunk_code_file_invariants (content fp : String) (csz : Nat) :
    (∀ c ∈ chunk_code_file content fp csz, c.start_line ≤ c.end_line) ∧
    List.Chain' (fun a b => b.start_line = a.end_line + 1)
      (chunk_code_file content fp csz) ∧
    (chunk_code_file content fp csz).head?.map Chunk.start_line = some 0 ∧
    (chunk_code_file content fp csz).getLast?.map Chunk.end_line =
      some (((pySplitLines content).length : Int) - 1) ∧
    (chunk_code_file content fp csz).map Chunk.chunk_id =
      (List.range (chunk_code_file content fp csz).length).map
        (fun i => "chunk_" ++ Nat.repr i) := by
  obtain ⟨h1, h2, h3, h4, h5, _⟩ := chunkAux_master csz fp (pySplitLines content)
    0 [] 0 0 (pySplitLines_ne_nil content) (by simp)
  refine ⟨h3, h4, by simpa using h1, by simpa using h2, ?_⟩
  rw [List.range_eq_range']
  exact h5

/-- Claim C8, counterexample: the empty input does not yield zero chunks —
Python's `''.split('\n')` is `['']`, so the chunker emits one chunk. -/
theorem chunk_empty_counterexample :
    chunk_code_file "" "a.py" 1000 ≠ [] := by
  decide

/-- Claim C8, amended: for the empty string and every `max_chunk_bytes`, the
chunker produces exactly one chunk, whose content is the empty string,
covering line 0. -/
theorem chunk_empty_singleton (fp : String) (csz : Nat) :
    chunk_code_file "" fp csz =
      [{ chunk_id := "chunk_0", content := "", start_line := 0, end_line := 0,
         file_path := fp }] := by
  have hlines : pySplitLines "" = [""] := by decide
  rw [chunk_code_file, hlines, chunkAux]
  rw [if_pos (Or.inr rfl), if_neg (by simp)]
  simp [chunkAux, pyJoinNL, intercalate_singleton]
  decide

/-! ## Corpus store: the `code_embeddings` table and the searches -/

/-- The per-chunk metadata dictionary serialized into `chunk_metadata`. -/
structure ChunkMetadata where
  language : String
  start_line : Int
  end_line : Int
  chunk_size : Nat
  file_size : Nat
deriving Repr, DecidableEq

/-- A row of the `code_embeddings` table (the `CodeEmbedding` model).
`embedding` is the 384-dim vector, modelled as a list of rationals. -/
structure CodeEmbedding where
  repo_name : String
  repo_url : String
  file_path : String
  chunk_id : String
  content : String
  embedding : List ℚ
  chunk_metadata : ChunkMetadata
deriving Repr, DecidableEq

/-- The table contents (insertion order standing in for storage order). -/
abbrev DB := List CodeEmbedding

/-- A Python result dict flowing out of the search methods. Keys that a
given search does not set are `none` (dict key absent). -/
structure SearchResult where
  file_path : String
  chunk_id : String
  content : String
  full_content : Option String
  metadata : ChunkMetadata
  similarity_score : Option ℚ
  relevance_score : Option ℚ
  combined_score : Option ℚ
  search_type : Option String
deriving Repr, DecidableEq

/-- `TiDBVectorStore.vector_search`: filter the repository's rows, order by
the store's cosine distance to the embedded query ascending, take `limit`,
and format each row with `similarity_score = 1 - distance`; content longer
than 1000 characters is truncated with an ellipsis while `full_content`
keeps the stored text. `embedFn` models `embed_text` / the sentence
transformer; `dist` models the store's `cosine_distance` operator. -/
def vector_search (embedFn : String → List ℚ) (dist : List ℚ → List ℚ → ℚ)
    (db : DB) (query repo_name : String) (limit : Nat) : List SearchResult :=
  let query_embedding := embedFn query
  let results := (sortBy
    (fun r₁ r₂ => decide (dist query_embedding r₁.embedding ≤
      dist query_embedding r₂.embedding))
    (db.filter fun r => r.repo_name == repo_name)).take limit
  results.map fun r =>
    { file_path := r.file_path
      chunk_id := r.chunk_id
      content := if r.content.length > 1000 then pySlice r.content 1000 ++ "..."
        else r.content
      full_content := some r.content
      metadata := r.chunk_metadata
      similarity_score := some (1 - dist query_embedding r.embedding)
      relevance_score := none
      combined_score := none
      search_type := none }

/-- Python/SQL substring containment (`Column.contains`, i.e.
`LIKE '%query%'`): the query's character sequence occurs contiguously in
the content's. -/
def pyContains (hay needle : String) : Bool :=
  decide (needle.data <:+: hay.data)

/-- `TiDBVectorStore.fulltext_search`: the repository's rows whose content
contains the query, in storage order, capped at `limit`, each with
`relevance_score = 1.0`. -/
def fulltext_search (db : DB) (query repo_name : String) (limit : Nat) :
    List SearchResult :=
  let results := (db.filter fun r =>
    r.repo_name == repo_name && pyContains r.content query).take limit
  results.map fun r =>
    { file_path := r.file_path
      chunk_id := r.chunk_id
      content := r.content
      full_content := none
      metadata := r.chunk_metadata
      similarity_score := none
      relevance_score := some 1
      combined_score := none
      search_type := none }

lemma vector_search_mem (embedFn : String → List ℚ)
    (dist : List ℚ → List ℚ → ℚ) (db : DB) (query repo_name : String)
    (limit : Nat) :
    ∀ r ∈ vector_search embedFn dist db query repo_name limit,
      ∃ row ∈ db, row.repo_name = repo_name ∧
        r.file_path = row.file_path ∧ r.chunk_id = row.chunk_id ∧
        r.full_content = some row.content ∧
        r.similarity_score = some (1 - dist (embedFn query) row.embedding) := by
  intro r hr
  rw [vector_search] at hr
  simp only [List.mem_map] at hr
  obtain ⟨row, hrow, hfmt⟩ := hr
  have hrow' : row ∈ sortBy
      (fun r₁ r₂ => decide (dist (embedFn query) r₁.embedding ≤
        dist (embedFn query) r₂.embedding))
      (db.filter fun r => r.repo_name == repo_name) :=
    List.mem_of_mem_take hrow
  have hrow'' := (sortBy_perm _ _).mem_iff.mp hrow'
  rw [List.mem_filter] at hrow''
  refine ⟨row, hrow''.1, by simpa using hrow''.2, ?_⟩
  rw [← hfmt]
  exact ⟨rfl, rfl, rfl, rfl⟩

lemma fulltext_search_mem (db : DB) (query repo_name : String) (limit : Nat) :
    ∀ r ∈ fulltext_search db query repo_name limit,
      ∃ row ∈ db, row.repo_name = repo_name ∧
        query.data <:+: row.content.data ∧
        r.file_path = row.file_path ∧ r.chunk_id = row.chunk_id ∧
        r.content = row.content ∧ r.relevance_score = some 1 := by
  intro r hr
  rw [fulltext_search] at hr
  simp only [List.mem_map] at hr
  obtain ⟨row, hrow, hfmt⟩ := hr
  have hrow' := List.mem_of_mem_take hrow
  rw [List.mem_filter] at hrow'
  have hcond := hrow'.2
  simp only [Bool.and_eq_true, beq_iff_eq] at hcond
  refine ⟨row, hrow'.1, hcond.1, ?_, ?_⟩
  · have := hcond.2
    rw [pyContains] at this
    simpa using this
  · rw [← hfmt]
    exact ⟨rfl, rfl, rfl, rfl⟩

/-- Claim C5: vector search returns chunks ordered by `similarity_score`
descending, and each returned chunk's `similarity_score` equals `1` minus
the store's cosine distance between its embedding and the embedded query. -/
theorem vector_search_spec (embedFn : String → List ℚ)
    (dist : List ℚ → List ℚ → ℚ) (db : DB) (query repo_name : String)
    (limit : Nat) :
    List.Pairwise
      (fun a b => b.similarity_score.getD 0 ≤ a.similarity_score.getD 0)
      (vector_search embedFn dist db query repo_name limit) ∧
    ∀ r ∈ vector_search embedFn dist db query repo_name limit,
      ∃ row ∈ db, row.repo_name = repo_name ∧
        r.file_path = row.file_path ∧ r.chunk_id = row.chunk_id ∧
        r.full_content = some row.content ∧
        r.similarity_score = some (1 - dist (embedFn query) row.embedding) := by
  constructor
  · have hs := sortBy_pairwise
      (fun r₁ r₂ => decide (dist (embedFn query) r₁.embedding ≤
        dist (embedFn query) r₂.embedding))
      (fun a b => by
        rcases le_total (dist (embedFn query) a.embedding)
          (dist (embedFn query) b.embedding) with h | h
        · left; simpa using h
        · right; simpa using h)
      (fun a b c hab hbc => by
        simp only [decide_eq_true_eq] at hab hbc ⊢
        exact le_trans hab hbc)
      (db.filter fun r => r.repo_name == repo_name)
    have htake := List.Pairwise.sublist (List.take_sublist limit _) hs
    rw [vector_search]
    rw [List.pairwise_map]
    refine htake.imp ?_
    intro a b hab
    simp only [decide_eq_true_eq] at hab
    simp only [Option.getD_some]
    linarith
  · exact vector_search_mem embedFn dist db query repo_name limit

/-- Claim C6: full-text search returns only chunks of the given repository
whose content contains the query as a literal (case-sensitive) substring,
assigns every returned chunk `relevance_score = 1.0`, and returns at most
`limit` results. -/
theorem fulltext_search_spec (db : DB) (query repo_name : String)
    (limit : Nat) :
    (∀ r ∈ fulltext_search db query repo_name limit,
      ∃ row ∈ db, row.repo_name = repo_name ∧
        query.data <:+: row.content.data ∧
        r.file_path = row.file_path ∧ r.chunk_id = row.chunk_id ∧
        r.content = row.content ∧ r.relevance_score = some 1) ∧
    (fulltext_search db query repo_name limit).length ≤ limit := by
  constructor
  · exact fulltext_search_mem db query repo_name limit
  · rw [fulltext_search]
    rw [List.length_map]
    exact List.length_take_le _ _

/-! ### Witness fixtures: a tiny concrete corpus -/

/-- Trivial embedding model used in witnesses. -/
def wEmbed : String → List ℚ := fun _ => []

/-- Concrete distance used in witnesses: the head of the row's vector. -/
def wDist : List ℚ → List ℚ → ℚ := fun _ e => e.headD 0

def wMeta : ChunkMetadata :=
  { language := "python", start_line := 0, end_line := 0,
    chunk_size := 1, file_size := 1 }

def vrowA : CodeEmbedding :=
  { repo_name := "r", repo_url := "u", file_path := "a.py",
    chunk_id := "chunk_0", content := "x", embedding := [3],
    chunk_metadata := wMeta }

def vrowB : CodeEmbedding :=
  { repo_name := "r", repo_url := "u", file_path := "b.py",
    chunk_id := "chunk_0", content := "y", embedding := [1],
    chunk_metadata := wMeta }

/-- The top result of the witness vector search (row `vrowB`, distance 1). -/
def vres0 : SearchResult :=
  { file_path := "b.py", chunk_id := "chunk_0", content := "y",
    full_content := some "y", metadata := wMeta,
    similarity_score := some (1 - wDist (wEmbed "q") vrowB.embedding),
    relevance_score := none, combined_score := none, search_type := none }

def frowA : CodeEmbedding :=
  { repo_name := "r", repo_url := "u", file_path := "t.py",
    chunk_id := "chunk_0", content := "do TODO now", embedding := [],
    chunk_metadata := wMeta }

/-- The single result of the witness full-text search. -/
def fres0 : SearchResult :=
  { file_path := "t.py", chunk_id := "chunk_0", content := "do TODO now",
    full_content := none, metadata := wMeta,
    similarity_score := none, relevance_score := some 1,
    combined_score := none, search_type := none }

/-! ## Indexing (`index_repository`) and stats (`get_repository_stats`) -/

/-- One element of `repo_data['files']`. -/
structure FileInfo where
  path : String
  content : String
  language : String
deriving Repr, DecidableEq

/-- The `repo_data` dict consumed by `index_repository`. -/
structure RepoData where
  repo_name : String
  github_url : String
  files : List FileInfo
deriving Repr, DecidableEq

/-- The dict returned by `index_repository`. -/
structure IndexResult where
  success : Bool
  indexed_files : Nat
  total_chunks : Nat
  repo_name : String
deriving Repr, DecidableEq

/-- The dict returned by `get_repository_stats`. -/
structure RepoStats where
  total_chunks : Nat
  total_files : Nat
  avg_chunk_size : Nat
deriving Repr, DecidableEq

/-- Python's `if not content or len(content) > 100000: continue` filter:
a file is indexed iff its content is nonempty and at most 100000 chars. -/
def eligible (f : FileInfo) : Bool :=
  !(f.content == "") && !(f.content.length > 100000)

/-- The rows created for one file by the inner loop of `index_repository`:
one per chunk of `chunk_code_file`, with the batch-encoded embedding and
the JSON metadata. -/
def fileRows (embedFn : String → List ℚ) (repo_name repo_url : String)
    (f : FileInfo) : List CodeEmbedding :=
  (chunk_code_file f.content f.path).map fun c =>
    { repo_name := repo_name
      repo_url := repo_url
      file_path := f.path
      chunk_id := c.chunk_id
      content := c.content
      embedding := embedFn c.content
      chunk_metadata :=
        { language := f.language
          start_line := c.start_line
          end_line := c.end_line
          chunk_size := c.content.length
          file_size := f.content.length } }

/-- `TiDBVectorStore.index_repository`: delete every existing row of the
repository, then insert the rows of every eligible file; report the number
of indexed files and inserted chunks. -/
def index_repository (embedFn : String → List ℚ) (db : DB) (rd : RepoData) :
    DB × IndexResult :=
  let kept := db.filter fun r => !(r.repo_name == rd.repo_name)
  let efiles := rd.files.filter eligible
  let newRows :=
    (efiles.map (fileRows embedFn rd.repo_name rd.github_url)).flatten
  (kept ++ newRows,
   { success := true
     indexed_files := efiles.length
     total_chunks := newRows.length
     repo_name := rd.repo_name })

/-- `TiDBVectorStore.get_repository_stats`: count of the repository's rows,
and of its distinct file paths. -/
def get_repository_stats (db : DB) (repo_name : String) : RepoStats :=
  let rows := db.filter fun r => r.repo_name == repo_name
  { total_chunks := rows.length
    total_files := ((rows.map (fun r => r.file_path)).dedup).length
    avg_chunk_size := 0 }

lemma fileRows_repo_name (embedFn : String → List ℚ)
    (rn ru : String) (f : FileInfo) :
    ∀ r ∈ fileRows embedFn rn ru f, r.repo_name = rn := by
  intro r hr
  rw [fileRows] at hr
  simp only [List.mem_map] at hr
  obtain ⟨c, _, hc⟩ := hr
  rw [← hc]

lemma newRows_repo_name (embedFn : String → List ℚ) (rd : RepoData) :
    ∀ r ∈ ((rd.files.filter eligible).map
      (fileRows embedFn rd.repo_name rd.github_url)).flatten,
      r.repo_name = rd.repo_name := by
  intro r hr
  rw [List.mem_flatten] at hr
  obtain ⟨l, hl, hr⟩ := hr
  rw [List.mem_map] at hl
  obtain ⟨f, _, hf⟩ := hl
  exact fileRows_repo_name embedFn rd.repo_name rd.github_url f r (hf ▸ hr)

lemma filter_repo_index (embedFn : String → List ℚ) (db : DB) (rd : RepoData) :
    (index_repository embedFn db rd).1.filter
        (fun r => r.repo_name == rd.repo_name) =
      ((rd.files.filter eligible).map
        (fileRows embedFn rd.repo_name rd.github_url)).flatten := by
  rw [index_repository]
  rw [List.filter_append]
  have h1 : (db.filter fun r => !(r.repo_name == rd.repo_name)).filter
      (fun r => r.repo_name == rd.repo_name) = [] := by
    rw [List.filter_filter]
    apply List.filter_eq_nil_iff.mpr
    intro r _
    simp
  have h2 : (((rd.files.filter eligible).map
      (fileRows embedFn rd.repo_name rd.github_url)).flatten).filter
      (fun r => r.repo_name == rd.repo_name) =
      ((rd.files.filter eligible).map
        (fileRows embedFn rd.repo_name rd.github_url)).flatten := by
    apply List.filter_eq_self.mpr
    intro r hr
    simpa using newRows_repo_name embedFn rd r hr
  rw [h1, h2, List.nil_append]

/-- Claim C4: after indexing, the repository's stats reflect exactly the
newly inserted chunk set — `total_chunks` is the number of rows the latest
indexing inserted and every surviving row of the repository is one of those
rows — and indexing twice with identical input yields identical stats. -/
theorem index_repository_replace (embedFn : String → List ℚ) (db : DB)
    (rd : RepoData) :
    (get_repository_stats (index_repository embedFn db rd).1
        rd.repo_name).total_chunks =
      (index_repository embedFn db rd).2.total_chunks ∧
    (∀ r ∈ (index_repository embedFn db rd).1, r.repo_name = rd.repo_name →
      r ∈ ((rd.files.filter eligible).map
        (fileRows embedFn rd.repo_name rd.github_url)).flatten) ∧
    get_repository_stats
        (index_repository embedFn (index_repository embedFn db rd).1 rd).1
        rd.repo_name =
      get_repository_stats (index_repository embedFn db rd).1 rd.repo_name := by
  refine ⟨?_, ?_, ?_⟩
  · rw [get_repository_stats]
    rw [filter_repo_index]
    rfl
  · intro r hr hrepo
    rw [index_repository] at hr
    rw [List.mem_append] at hr
    rcases hr with hr | hr
    · rw [List.mem_filter] at hr
      exact absurd hrepo (by simpa using hr.2)
    · exact hr
  · rw [get_repository_stats, get_repository_stats]
    rw [filter_repo_index, filter_repo_index]

/-- Witness for claim C4 on a one-file repository. -/
theorem index_repository_replace_witness :
    (get_repository_stats
        (index_repository wEmbed [vrowA]
          { repo_name := "r", github_url := "u",
            files := [{ path := "a.py", content := "pass", language := "python" }] }).1
        "r").total_chunks =
      (index_repository wEmbed [vrowA]
        { repo_name := "r", github_url := "u",
          files := [{ path := "a.py", content := "pass", language := "python" }] }).2.total_chunks ∧
    get_repository_stats
        (index_repository wEmbed
          (index_repository wEmbed [vrowA]
            { repo_name := "r", github_url := "u",
              files := [{ path := "a.py", content := "pass", language := "python" }] }).1
          { repo_name := "r", github_url := "u",
            files := [{ path := "a.py", content := "pass", language := "python" }] }).1
        "r" =
      get_repository_stats
        (index_repository wEmbed [vrowA]
          { repo_name := "r", github_url := "u",
            files := [{ path := "a.py", content := "pass", language := "python" }] }).1
        "r" :=
  ⟨(index_repository_replace wEmbed [vrowA]
      { repo_name := "r", github_url := "u",
        files := [{ path := "a.py", content := "pass", language := "python" }] }).1,
   (index_repository_replace wEmbed [vrowA]
      { repo_name := "r", github_url := "u",
        files := [{ path := "a.py", content := "pass", language := "python" }] }).2.2⟩

/-- Witness for claim C3 at the concrete input `"a\nb"`, chunk size 1. -/
theorem chunk_code_file_invariants_witness :
    ({ chunk_id := "chunk_0", content := "a", start_line := 0, end_line := 0,
       file_path := "f" } : Chunk).start_line ≤
      ({ chunk_id := "chunk_0", content := "a", start_line := 0, end_line := 0,
         file_path := "f" } : Chunk).end_line ∧
    (chunk_code_file "a\nb" "f" 1).map Chunk.chunk_id =
      (List.range (chunk_code_file "a\nb" "f" 1).length).map
        (fun i => "chunk_" ++ Nat.repr i) :=
  ⟨(chunk_code_file_invariants "a\nb" "f" 1).1
      { chunk_id := "chunk_0", content := "a", start_line := 0, end_line := 0,
        file_path := "f" } (by decide),
   (chunk_code_file_invariants "a\nb" "f" 1).2.2.2.2⟩

/-- Witness for claim C5 on a two-row corpus: the ordering clause, and the
characterization clause applied to the concrete top result. -/
theorem vector_search_spec_witness :
    List.Pairwise
      (fun a b => b.similarity_score.getD 0 ≤ a.similarity_score.getD 0)
      (vector_search wEmbed wDist [vrowA, vrowB] "q" "r" 5) ∧
    ∃ row ∈ ([vrowA, vrowB] : DB), row.repo_name = "r" ∧
      vres0.file_path = row.file_path ∧ vres0.chunk_id = row.chunk_id ∧
      vres0.full_content = some row.content ∧
      vres0.similarity_score = some (1 - wDist (wEmbed "q") row.embedding) :=
  ⟨(vector_search_spec wEmbed wDist [vrowA, vrowB] "q" "r" 5).1,
   (vector_search_spec wEmbed wDist [vrowA, vrowB] "q" "r" 5).2 vres0
     (by exact List.mem_cons_self _ _)⟩

/-- Witness for claim C6 on a one-row corpus containing the substring. -/
theorem fulltext_search_spec_witness :
    (∃ row ∈ ([frowA] : DB), row.repo_name = "r" ∧
      "TODO".data <:+: row.content.data ∧
      fres0.file_path = row.file_path ∧ fres0.chunk_id = row.chunk_id ∧
      fres0.content = row.content ∧ fres0.relevance_score = some 1) ∧
    (fulltext_search [frowA] "TODO" "r" 5).length ≤ 5 :=
  ⟨(fulltext_search_spec [frowA] "TODO" "r" 5).1 fres0 (by decide),
   (fulltext_search_spec [frowA] "TODO" "r" 5).2⟩

/-! ## The embedding cache (`embed_text`) -/

/-- The `_embedding_cache` dict: association list in insertion order
(first entry = oldest inserted), keyed by the content hash. -/
abbrev EmbedCache := List (String × List ℚ)

/-- Python `text_hash in self._embedding_cache` /
`self._embedding_cache[text_hash]`. -/
def cacheLookup (k : String) : EmbedCache → Option (List ℚ)
  | [] => none
  | (k', v) :: rest => if k' = k then some v else cacheLookup k rest

/-- `TiDBVectorStore.embed_text`: on a hash hit return the cached vector; on
a miss invoke the model, evict the oldest entry when the cache is at the
1000-entry capacity, and insert. Returns the vector, the new cache, and
whether the model was invoked. `hashFn` models `hashlib.md5(...).hexdigest()`
and `model` the sentence-transformer call. -/
def embed_text (model : String → List ℚ) (hashFn : String → String)
    (cache : EmbedCache) (text : String) : List ℚ × EmbedCache × Bool :=
  let text_hash := hashFn text
  match cacheLookup text_hash cache with
  | some v => (v, cache, false)
  | none =>
    let embedding := model text
    let cache' := if cache.length ≥ 1000 then cache.drop 1 else cache
    (embedding, cache' ++ [(text_hash, embedding)], true)

/-- A whole sequence of `embed_text` calls, starting from a given cache. -/
def embedCalls (model : String → List ℚ) (hashFn : String → String) :
    List String → EmbedCache → EmbedCache
  | [], cache => cache
  | t :: ts, cache =>
    embedCalls model hashFn ts (embed_text model hashFn cache t).2.1

lemma embed_text_cache_length (model : String → List ℚ)
    (hashFn : String → String) (cache : EmbedCache) (text : String)
    (h : cache.length ≤ 1000) :
    (embed_text model hashFn cache text).2.1.length ≤ 1000 := by
  rw [embed_text]
  cases hl : cacheLookup (hashFn text) cache with
  | some v => simpa using h
  | none =>
    by_cases hcap : cache.length ≥ 1000
    · simp [hcap, List.length_drop]
      omega
    · simp [hcap]
      omega

/-- Claim C7: starting from the empty cache, no sequence of `embed_text`
calls ever grows the cache beyond 1000 entries; a call whose content hash is
cached returns the cached vector without invoking the model; and a miss at
capacity evicts the oldest-inserted entry before appending the new one. -/
theorem embed_cache_spec (model : String → List ℚ)
    (hashFn : String → String) :
    (∀ texts : List String,
      (embedCalls model hashFn texts []).length ≤ 1000) ∧
    (∀ (cache : EmbedCache) (text : String) (v : List ℚ),
      cacheLookup (hashFn text) cache = some v →
      embed_text model hashFn cache text = (v, cache, false)) ∧
    (∀ (cache : EmbedCache) (text : String),
      cache.length = 1000 → cacheLookup (hashFn text) cache = none →
      (embed_text model hashFn cache text).2.1 =
        cache.drop 1 ++ [(hashFn text, model text)]) := by
  refine ⟨?_, ?_, ?_⟩
  · have hgen : ∀ (texts : List String) (cache : EmbedCache),
        cache.length ≤ 1000 →
        (embedCalls model hashFn texts cache).length ≤ 1000 := by
      intro texts
      induction texts with
      | nil => intro cache h; exact h
      | cons t ts ih =>
        intro cache h
        rw [embedCalls]
        exact ih _ (embed_text_cache_length model hashFn cache t h)
    intro texts
    exact hgen texts [] (by simp)
  · intro cache text v h
    rw [embed_text, h]
  · intro cache text h1 h2
    rw [embed_text, h2]
    simp [h1]

/-- Witness for claim C7: a two-call sequence stays bounded; a hit on a
one-entry cache returns the cached vector with no model call; a miss on a
full 1000-entry cache drops the first entry and appends the new one. -/
theorem embed_cache_spec_witness :
    (embedCalls (fun _ => []) (fun s => s) ["a", "b"] []).length ≤ 1000 ∧
    embed_text (fun _ => []) (fun s => s) [("a", [5])] "a" =
      ([5], [("a", [5])], false) ∧
    (embed_text (fun _ => []) (fun s => s)
        (List.replicate 1000 ("k", [])) "x").2.1 =
      (List.replicate 1000 ("k", [])).drop 1 ++ [("x", [])] :=
  ⟨(embed_cache_spec (fun _ => []) (fun s => s)).1 ["a", "b"],
   (embed_cache_spec (fun _ => []) (fun s => s)).2.1 [("a", [5])] "a" [5]
     (by rfl),
   (embed_cache_spec (fun _ => []) (fun s => s)).2.2
     (List.replicate 1000 ("k", [])) "x" (List.length_replicate 1000 _)
     (by
       have hnone : ∀ n, cacheLookup "x" (List.replicate n ("k", [])) = none := by
         intro n
         induction n with
         | zero => rfl
         | succ m ih => simpa [List.replicate_succ, cacheLookup] using ih
       exact hnone 1000)⟩

/-! ## Hybrid search (`hybrid_search`) -/

/-- The merge key `f"{file_path}:{chunk_id}"`. -/
def skey (file_path chunk_id : String) : String := file_path ++ ":" ++ chunk_id

/-- The merge key of a search result. -/
def rkey (r : SearchResult) : String := skey r.file_path r.chunk_id

/-- The identity `(file_path, chunk_id)` of a search result. -/
def pairkey (r : SearchResult) : String × String := (r.file_path, r.chunk_id)

/-- The predicate "this result has merge key `k`". -/
def keyMatch (k : String) (x : SearchResult) : Bool := rkey x == k

/-- The `combined_results` Python dict: an association list in insertion
order. Assignment to an existing key replaces the value in place;
assignment to a fresh key appends. -/
abbrev RDict := List (String × SearchResult)

def dinsert (k : String) (v : SearchResult) : RDict → RDict
  | [] => [(k, v)]
  | (k', v') :: rest =>
    if k' = k then (k, v) :: rest else (k', v') :: dinsert k v rest

def dlookup (k : String) : RDict → Option SearchResult
  | [] => none
  | (k', v') :: rest => if k' = k then some v' else dlookup k rest

/-- Tagging of a vector result in the first loop of `hybrid_search`. -/
def vtag (r : SearchResult) : SearchResult :=
  { r with search_type := some "vector", combined_score := r.similarity_score }

/-- Update of an entry found by both searches (second loop, key present):
`combined_score = (similarity_score + relevance_score / 10) / 2`. -/
def htag (e f : SearchResult) : SearchResult :=
  { e with
    combined_score := some ((e.similarity_score.getD 0 +
      f.relevance_score.getD 0 / 10) / 2),
    search_type := some "hybrid" }

/-- Tagging of a full-text-only result (second loop, key absent). -/
def ftag (f : SearchResult) : SearchResult :=
  { f with
    search_type := some "fulltext",
    combined_score := some (f.relevance_score.getD 0 / 10) }

/-- First loop of `hybrid_search`: insert the vector results. -/
def addVector (d : RDict) (rs : List SearchResult) : RDict :=
  rs.foldl (fun d r => dinsert (rkey r) (vtag r) d) d

/-- Second loop of `hybrid_search`: merge the full-text results. -/
def addFulltext (d : RDict) (rs : List SearchResult) : RDict :=
  rs.foldl (fun d r =>
    match dlookup (rkey r) d with
    | some e => dinsert (rkey r) (htag e r) d
    | none => dinsert (rkey r) (ftag r) d) d

/-- The merged, still unsorted result set (`combined_results.values()`). -/
def hybridMerged (vec ft : List SearchResult) : List SearchResult :=
  (addFulltext (addVector [] vec) ft).map (fun p => p.2)

/-- The merge-sort-truncate tail of `hybrid_search` on given sub-results. -/
def hybrid_merge (vec ft : List SearchResult) (limit : Nat) :
    List SearchResult :=
  (sortBy
    (fun a b => decide (a.combined_score.getD 0 ≥ b.combined_score.getD 0))
    (hybridMerged vec ft)).take limit

/-- `TiDBVectorStore.hybrid_search`. -/
def hybrid_search (embedFn : String → List ℚ) (dist : List ℚ → List ℚ → ℚ)
    (db : DB) (query repo_name : String) (limit : Nat) : List SearchResult :=
  hybrid_merge (vector_search embedFn dist db query repo_name limit)
    (fulltext_search db query repo_name limit) limit

lemma dlookup_dinsert (k k' : String) (v : SearchResult) :
    ∀ d : RDict, dlookup k (dinsert k' v d) =
      if k' = k then some v else dlookup k d := by
  intro d
  induction d with
  | nil => simp [dinsert, dlookup]
  | cons p rest ih =>
    obtain ⟨k₀, v₀⟩ := p
    rw [dinsert]
    by_cases h : k₀ = k'
    · rw [if_pos h, dlookup]
      by_cases h2 : k' = k
      · rw [if_pos h2, if_pos h2]
      · rw [if_neg h2, if_neg h2, dlookup, if_neg (by rw [h]; exact h2)]
    · rw [if_neg h, dlookup, dlookup]
      by_cases h2 : k₀ = k
      · rw [if_pos h2, if_pos h2, if_neg (fun he => h (h2.trans he.symm))]
      · rw [if_neg h2, if_neg h2, ih]

lemma mem_dkeys_dinsert (a k : String) (v : SearchResult) :
    ∀ d : RDict, a ∈ (dinsert k v d).map Prod.fst ↔
      a = k ∨ a ∈ d.map Prod.fst := by
  intro d
  induction d with
  | nil => simp [dinsert]
  | cons p rest ih =>
    obtain ⟨k₀, v₀⟩ := p
    rw [dinsert]
    by_cases h : k₀ = k
    · rw [if_pos h]
      subst h
      simp only [List.map_cons, List.mem_cons]
      tauto
    · rw [if_neg h]
      simp only [List.map_cons, List.mem_cons]
      rw [ih]
      tauto

lemma dkeys_nodup_dinsert (k : String) (v : SearchResult) :
    ∀ d : RDict, (d.map Prod.fst).Nodup →
      ((dinsert k v d).map Prod.fst).Nodup := by
  intro d
  induction d with
  | nil => intro; simp [dinsert]
  | cons p rest ih =>
    obtain ⟨k₀, v₀⟩ := p
    intro hnd
    simp only [List.map_cons, List.nodup_cons] at hnd
    rw [dinsert]
    by_cases h : k₀ = k
    · rw [if_pos h]
      simp only [List.map_cons, List.nodup_cons]
      exact ⟨h ▸ hnd.1, hnd.2⟩
    · rw [if_neg h]
      simp only [List.map_cons, List.nodup_cons]
      refine ⟨?_, ih hnd.2⟩
      rw [mem_dkeys_dinsert]
      rintro (he | he)
      · exact h he
      · exact hnd.1 he

lemma dlookup_mem (k : String) (v : SearchResult) :
    ∀ d : RDict, dlookup k d = some v → (k, v) ∈ d := by
  intro d
  induction d with
  | nil => intro h; exact absurd h (by simp [dlookup])
  | cons p rest ih =>
    obtain ⟨k₀, v₀⟩ := p
    intro h
    rw [dlookup] at h
    by_cases he : k₀ = k
    · rw [if_pos he] at h
      subst he
      rcases Option.some.inj h with rfl
      exact List.mem_cons_self _ _
    · rw [if_neg he] at h
      exact List.mem_cons_of_mem _ (ih h)

lemma mem_dlookup (p : String × SearchResult) :
    ∀ d : RDict, (d.map Prod.fst).Nodup → p ∈ d →
      dlookup p.1 d = some p.2 := by
  intro d
  induction d with
  | nil => intro _ h; exact absurd h (by simp)
  | cons q rest ih =>
    obtain ⟨k₀, v₀⟩ := q
    intro hnd hp
    simp only [List.map_cons, List.nodup_cons] at hnd
    rcases List.mem_cons.mp hp with h | h
    · subst h
      rw [dlookup, if_pos rfl]
    · rw [dlookup]
      by_cases he : k₀ = p.1
      · exfalso
        apply hnd.1
        rw [he]
        exact List.mem_map.mpr ⟨p, h, rfl⟩
      · rw [if_neg he]
        exact ih hnd.2 h

/-- `dwf d`: every stored value's merge key is its dict key (holds for the
dict built by `hybrid_search`). -/
def dwf (d : RDict) : Prop := ∀ p ∈ d, rkey p.2 = p.1

lemma dwf_dinsert (k : String) (v : SearchResult) (hv : rkey v = k) :
    ∀ d : RDict, dwf d → dwf (dinsert k v d) := by
  intro d
  induction d with
  | nil =>
    intro _ p hp
    rcases List.mem_singleton.mp hp with rfl
    exact hv
  | cons q rest ih =>
    obtain ⟨k₀, v₀⟩ := q
    intro hd
    rw [dinsert]
    by_cases h : k₀ = k
    · rw [if_pos h]
      intro p hp
      rcases List.mem_cons.mp hp with rfl | hp
      · exact hv
      · exact hd p (List.mem_cons_of_mem _ hp)
    · rw [if_neg h]
      intro p hp
      rcases List.mem_cons.mp hp with rfl | hp
      · exact hd _ (List.mem_cons_self _ _)
      · exact ih (fun q hq => hd q (List.mem_cons_of_mem _ hq)) p hp

lemma dkeys_nodup_addVector (vec : List SearchResult) :
    ∀ d : RDict, (d.map Prod.fst).Nodup →
      ((addVector d vec).map Prod.fst).Nodup := by
  induction vec with
  | nil => intro d h; exact h
  | cons r rs ih =>
    intro d h
    exact ih _ (dkeys_nodup_dinsert _ _ d h)

lemma dwf_addVector (vec : List SearchResult) :
    ∀ d : RDict, dwf d → dwf (addVector d vec) := by
  induction vec with
  | nil => intro d h; exact h
  | cons r rs ih =>
    intro d h
    exact ih _ (dwf_dinsert (rkey r) (vtag r) rfl d h)

lemma dkeys_nodup_addFulltext (ft : List SearchResult) :
    ∀ d : RDict, (d.map Prod.fst).Nodup →
      ((addFulltext d ft).map Prod.fst).Nodup := by
  induction ft with
  | nil => intro d h; exact h
  | cons r rs ih =>
    intro d h
    show ((addFulltext (match dlookup (rkey r) d with
      | some e => dinsert (rkey r) (htag e r) d
      | none => dinsert (rkey r) (ftag r) d) rs).map Prod.fst).Nodup
    cases dlookup (rkey r) d with
    | some e => exact ih _ (dkeys_nodup_dinsert _ _ d h)
    | none => exact ih _ (dkeys_nodup_dinsert _ _ d h)

lemma dwf_addFulltext (ft : List SearchResult) :
    ∀ d : RDict, dwf d → dwf (addFulltext d ft) := by
  induction ft with
  | nil => intro d h; exact h
  | cons r rs ih =>
    intro d h
    show dwf (addFulltext (match dlookup (rkey r) d with
      | some e => dinsert (rkey r) (htag e r) d
      | none => dinsert (rkey r) (ftag r) d) rs)
    cases he : dlookup (rkey r) d with
    | some e =>
      have hke : rkey e = rkey r := h _ (dlookup_mem _ _ d he)
      exact ih _ (dwf_dinsert (rkey r) (htag e r) hke d h)
    | none => exact ih _ (dwf_dinsert (rkey r) (ftag r) rfl d h)

lemma dlookup_addVector (k : String) :
    ∀ (vec : List SearchResult), (vec.map rkey).Nodup → ∀ d : RDict,
      dlookup k (addVector d vec) =
        match vec.find? (keyMatch k) with
        | some r => some (vtag r)
        | none => dlookup k d := by
  intro vec
  induction vec with
  | nil => intro _ d; rfl
  | cons r rs ih =>
    intro hnd d
    simp only [List.map_cons, List.nodup_cons] at hnd
    show dlookup k (addVector (dinsert (rkey r) (vtag r) d) rs) = _
    rw [ih hnd.2]
    by_cases hk : rkey r = k
    · have hpr : keyMatch k r = true := by simp [keyMatch, hk]
      rw [List.find?_cons_of_pos _ hpr]
      have hrs : rs.find? (keyMatch k) = none := by
        rw [List.find?_eq_none]
        intro x hx
        simp only [keyMatch, beq_iff_eq]
        intro hxk
        exact hnd.1 (hk ▸ hxk ▸ List.mem_map.mpr ⟨x, hx, rfl⟩)
      rw [hrs, dlookup_dinsert, if_pos hk]
    · have hpr : ¬(keyMatch k r = true) := by simp [keyMatch, hk]
      rw [List.find?_cons_of_neg _ hpr]
      cases hf : rs.find? (keyMatch k) with
      | some r' => rfl
      | none => rw [dlookup_dinsert, if_neg hk]

lemma dlookup_addFulltext (k : String) :
    ∀ (ft : List SearchResult), (ft.map rkey).Nodup → ∀ d : RDict,
      dlookup k (addFulltext d ft) =
        match ft.find? (keyMatch k), dlookup k d with
        | some f, some e => some (htag e f)
        | some f, none => some (ftag f)
        | none, _ => dlookup k d := by
  intro ft
  induction ft with
  | nil => intro _ d; rfl
  | cons f fs ih =>
    intro hnd d
    simp only [List.map_cons, List.nodup_cons] at hnd
    show dlookup k (addFulltext (match dlookup (rkey f) d with
      | some e => dinsert (rkey f) (htag e f) d
      | none => dinsert (rkey f) (ftag f) d) fs) = _
    rw [ih hnd.2]
    by_cases hk : rkey f = k
    · have hpr : keyMatch k f = true := by simp [keyMatch, hk]
      rw [List.find?_cons_of_pos _ hpr]
      have hfs : fs.find? (keyMatch k) = none := by
        rw [List.find?_eq_none]
        intro x hx
        simp only [keyMatch, beq_iff_eq]
        intro hxk
        exact hnd.1 (hk ▸ hxk ▸ List.mem_map.mpr ⟨x, hx, rfl⟩)
      rw [hfs]
      cases hd : dlookup k d with
      | some e =>
        have hd' : dlookup (rkey f) d = some e := by rw [hk]; exact hd
        rw [hd', dlookup_dinsert, if_pos hk]
      | none =>
        have hd' : dlookup (rkey f) d = none := by rw [hk]; exact hd
        rw [hd', dlookup_dinsert, if_pos hk]
    · have hpr : ¬(keyMatch k f = true) := by simp [keyMatch, hk]
      rw [List.find?_cons_of_neg _ hpr]
      have hinner : dlookup k (match dlookup (rkey f) d with
          | some e => dinsert (rkey f) (htag e f) d
          | none => dinsert (rkey f) (ftag f) d) = dlookup k d := by
        cases dlookup (rkey f) d with
        | some e => rw [dlookup_dinsert, if_neg hk]
        | none => rw [dlookup_dinsert, if_neg hk]
      rw [hinner]

lemma hybridMerged_lookup (vec ft : List SearchResult)
    (hv : (vec.map rkey).Nodup) (hf : (ft.map rkey).Nodup) (k : String) :
    dlookup k (addFulltext (addVector [] vec) ft) =
      match ft.find? (keyMatch k), vec.find? (keyMatch k) with
      | some f, some v => some (htag (vtag v) f)
      | some f, none => some (ftag f)
      | none, some v => some (vtag v)
      | none, none => none := by
  rw [dlookup_addFulltext k ft hf, dlookup_addVector k vec hv]
  cases ft.find? (keyMatch k) with
  | some f =>
    cases vec.find? (keyMatch k) with
    | some v => rfl
    | none => rfl
  | none =>
    cases vec.find? (keyMatch k) with
    | some v => rfl
    | none => rfl

lemma find?_rkey_self (l : List SearchResult) (hnd : (l.map rkey).Nodup)
    (r : SearchResult) (hr : r ∈ l) :
    l.find? (keyMatch (rkey r)) = some r := by
  induction l with
  | nil => cases hr
  | cons a as ih =>
    simp only [List.map_cons, List.nodup_cons] at hnd
    rcases List.mem_cons.mp hr with h | h
    · subst h
      rw [List.find?_cons_of_pos _ (by simp [keyMatch])]
    · by_cases ha : rkey a = rkey r
      · exact absurd (ha ▸ List.mem_map.mpr ⟨r, h, rfl⟩) hnd.1
      · rw [List.find?_cons_of_neg _ (by simp [keyMatch, ha])]
        exact ih hnd.2 h

lemma append_cons_eq_of_not_mem {α : Type} {x : α} :
    ∀ {a₁ : List α} {b₁ a₂ b₂ : List α}, x ∉ a₁ → x ∉ a₂ →
      a₁ ++ x :: b₁ = a₂ ++ x :: b₂ → a₁ = a₂ ∧ b₁ = b₂ := by
  intro a₁
  induction a₁ with
  | nil =>
    intro b₁ a₂ b₂ _ h2 he
    cases a₂ with
    | nil =>
      simp only [List.nil_append] at he
      exact ⟨rfl, (List.cons.injEq _ _ _ _).mp he |>.2⟩
    | cons y a₂' =>
      simp only [List.nil_append, List.cons_append] at he
      obtain ⟨hxy, _⟩ := (List.cons.injEq _ _ _ _).mp he
      exact absurd (hxy ▸ List.mem_cons_self x a₂') h2
  | cons y a₁' ih =>
    intro b₁ a₂ b₂ h1 h2 he
    cases a₂ with
    | nil =>
      simp only [List.cons_append, List.nil_append] at he
      obtain ⟨hxy, _⟩ := (List.cons.injEq _ _ _ _).mp he
      exact absurd (hxy ▸ List.mem_cons_self y a₁') h1
    | cons z a₂' =>
      simp only [List.cons_append] at he
      obtain ⟨hyz, htail⟩ := (List.cons.injEq _ _ _ _).mp he
      obtain ⟨ha, hb⟩ := ih (fun hm => h1 (List.mem_cons_of_mem _ hm))
        (fun hm => h2 (List.mem_cons_of_mem _ hm)) htail
      exact ⟨by rw [hyz, ha], hb⟩

lemma string_data_inj {s t : String} (h : s.data = t.data) : s = t := by
  cases s
  cases t
  exact congrArg String.mk h

/-- With colon-free chunk ids the string merge key determines the pair
`(file_path, chunk_id)`: the key is split at its last colon. -/
lemma skey_inj {fp₁ cid₁ fp₂ cid₂ : String}
    (h1 : ':' ∉ cid₁.data) (h2 : ':' ∉ cid₂.data)
    (h : skey fp₁ cid₁ = skey fp₂ cid₂) : fp₁ = fp₂ ∧ cid₁ = cid₂ := by
  have hd : fp₁.data ++ ':' :: cid₁.data = fp₂.data ++ ':' :: cid₂.data := by
    have := congrArg String.data h
    simpa [skey, List.append_assoc] using this
  have hrev := congrArg List.reverse hd
  simp only [List.reverse_append, List.reverse_cons, List.append_assoc,
    List.singleton_append] at hrev
  have hx1 : ':' ∉ cid₁.data.reverse := by simpa using h1
  have hx2 : ':' ∉ cid₂.data.reverse := by simpa using h2
  obtain ⟨ha, hb⟩ := append_cons_eq_of_not_mem hx1 hx2 hrev
  constructor
  · exact string_data_inj (List.reverse_injective hb)
  · exact string_data_inj (List.reverse_injective ha)

lemma rkey_nodup_of_pairkey (l : List SearchResult)
    (hp : (l.map pairkey).Nodup) (hc : ∀ r ∈ l, ':' ∉ r.chunk_id.data) :
    (l.map rkey).Nodup := by
  have he : l.map rkey = (l.map pairkey).map (fun p => skey p.1 p.2) := by
    rw [List.map_map]
    rfl
  rw [he]
  refine List.Nodup.map_on ?_ hp
  intro x hx y hy hxy
  obtain ⟨rx, hrx, hrxe⟩ := List.mem_map.mp hx
  obtain ⟨ry, hry, hrye⟩ := List.mem_map.mp hy
  have hcx : ':' ∉ x.2.data := by
    rw [← hrxe]
    exact hc rx hrx
  have hcy : ':' ∉ y.2.data := by
    rw [← hrye]
    exact hc ry hry
  obtain ⟨hfp, hcid⟩ := skey_inj hcx hcy hxy
  exact Prod.ext hfp hcid

/-- Dropping a conjunct from the filter predicate yields a superlist. -/
lemma filter_and_sublist {α : Type} (p q : α → Bool) :
    ∀ l : List α, List.Sublist (l.filter fun a => p a && q a) (l.filter p) := by
  intro l
  induction l with
  | nil => simp
  | cons a as ih =>
    by_cases hp : p a
    · by_cases hq : q a
      · simpa [List.filter_cons, hp, hq] using ih.cons₂ a
      · simpa [List.filter_cons, hp, hq] using ih.cons a
    · simpa [List.filter_cons, hp] using ih

lemma sortBy_take_map_nodup {α β : Type} (r : α → α → Bool) (l : List α)
    (f : α → β) (n : Nat) (h : (l.map f).Nodup) :
    (((sortBy r l).take n).map f).Nodup := by
  have hperm := (sortBy_perm r l).map f
  have hs := hperm.nodup_iff.mpr h
  exact List.Pairwise.sublist ((List.take_sublist n _).map f) hs

lemma vector_search_pairkey_nodup (embedFn : String → List ℚ)
    (dist : List ℚ → List ℚ → ℚ) (db : DB) (query repo_name : String)
    (limit : Nat)
    (h : ((db.filter fun r => r.repo_name == repo_name).map
      (fun row => (row.file_path, row.chunk_id))).Nodup) :
    ((vector_search embedFn dist db query repo_name limit).map
      pairkey).Nodup := by
  rw [vector_search, List.map_map]
  exact sortBy_take_map_nodup _ _ _ limit h

lemma fulltext_search_pairkey_nodup (db : DB) (query repo_name : String)
    (limit : Nat)
    (h : ((db.filter fun r => r.repo_name == repo_name).map
      (fun row => (row.file_path, row.chunk_id))).Nodup) :
    ((fulltext_search db query repo_name limit).map pairkey).Nodup := by
  rw [fulltext_search, List.map_map]
  have hsub := (filter_and_sublist (fun r => r.repo_name == repo_name)
    (fun r => pyContains r.content query) db).map
    (fun row : CodeEmbedding => (row.file_path, row.chunk_id))
  have hfil := List.Pairwise.sublist hsub h
  exact List.Pairwise.sublist
    ((List.take_sublist limit _).map
      (fun row : CodeEmbedding => (row.file_path, row.chunk_id)))
    hfil

lemma vector_search_colon_free (embedFn : String → List ℚ)
    (dist : List ℚ → List ℚ → ℚ) (db : DB) (query repo_name : String)
    (limit : Nat) (hc : ∀ row ∈ db, ':' ∉ row.chunk_id.data) :
    ∀ r ∈ vector_search embedFn dist db query repo_name limit,
      ':' ∉ r.chunk_id.data := by
  intro r hr
  obtain ⟨row, hrow, _, _, hcid, _, _⟩ :=
    vector_search_mem embedFn dist db query repo_name limit r hr
  rw [hcid]
  exact hc row hrow

lemma fulltext_search_colon_free (db : DB) (query repo_name : String)
    (limit : Nat) (hc : ∀ row ∈ db, ':' ∉ row.chunk_id.data) :
    ∀ r ∈ fulltext_search db query repo_name limit,
      ':' ∉ r.chunk_id.data := by
  intro r hr
  obtain ⟨row, hrow, _, _, _, hcid, _, _⟩ :=
    fulltext_search_mem db query repo_name limit r hr
  rw [hcid]
  exact hc row hrow

lemma mem_hybridMerged_of_dlookup (vec ft : List SearchResult) (k : String)
    (e : SearchResult)
    (h : dlookup k (addFulltext (addVector [] vec) ft) = some e) :
    e ∈ hybridMerged vec ft := by
  rw [hybridMerged]
  exact List.mem_map.mpr ⟨(k, e), dlookup_mem k e _ h, rfl⟩

lemma dlookup_of_mem_hybridMerged (vec ft : List SearchResult)
    (e : SearchResult) (he : e ∈ hybridMerged vec ft) :
    ∃ k, dlookup k (addFulltext (addVector [] vec) ft) = some e := by
  rw [hybridMerged] at he
  obtain ⟨p, hp, hpe⟩ := List.mem_map.mp he
  have hnd : ((addFulltext (addVector [] vec) ft).map Prod.fst).Nodup :=
    dkeys_nodup_addFulltext ft _ (dkeys_nodup_addVector vec [] (by simp))
  exact ⟨p.1, by rw [mem_dlookup p _ hnd hp, hpe]⟩

/-- Claim C1: hybrid search merges the vector and full-text result sets by
the key `(file_path, chunk_id)` — a chunk in both gets
`combined_score = (similarity_score + relevance_score/10)/2` and
`search_type = "hybrid"`, a vector-only chunk keeps its similarity score
with `search_type = "vector"`, a full-text-only chunk gets
`relevance_score/10` with `search_type = "fulltext"`, each key appears once
and none appear from nowhere — and the merged set is sorted by
`combined_score` descending with the top `limit` entries returned.
(The two hypotheses are the store's invariants: the repository's rows have
pairwise-distinct `(file_path, chunk_id)` and colon-free chunk ids, as
`index_repository` always produces.) -/
theorem hybrid_search_spec (embedFn : String → List ℚ)
    (dist : List ℚ → List ℚ → ℚ) (db : DB) (query repo_name : String)
    (limit : Nat)
    (hpairs : ((db.filter fun r => r.repo_name == repo_name).map
      (fun row => (row.file_path, row.chunk_id))).Nodup)
    (hcolon : ∀ row ∈ db, ':' ∉ row.chunk_id.data) :
    (hybrid_search embedFn dist db query repo_name limit =
      (sortBy (fun a b =>
          decide (a.combined_score.getD 0 ≥ b.combined_score.getD 0))
        (hybridMerged (vector_search embedFn dist db query repo_name limit)
          (fulltext_search db query repo_name limit))).take limit) ∧
    List.Pairwise
      (fun a b => b.combined_score.getD 0 ≤ a.combined_score.getD 0)
      (hybrid_search embedFn dist db query repo_name limit) ∧
    (∀ rv ∈ vector_search embedFn dist db query repo_name limit,
      ∀ rf ∈ fulltext_search db query repo_name limit,
      rv.file_path = rf.file_path → rv.chunk_id = rf.chunk_id →
      ∃ e ∈ hybridMerged (vector_search embedFn dist db query repo_name limit)
          (fulltext_search db query repo_name limit),
        e.file_path = rv.file_path ∧ e.chunk_id = rv.chunk_id ∧
        e.combined_score = some ((rv.similarity_score.getD 0 +
          rf.relevance_score.getD 0 / 10) / 2) ∧
        e.search_type = some "hybrid") ∧
    (∀ rv ∈ vector_search embedFn dist db query repo_name limit,
      (∀ rf ∈ fulltext_search db query repo_name limit,
        ¬(rv.file_path = rf.file_path ∧ rv.chunk_id = rf.chunk_id)) →
      ∃ e ∈ hybridMerged (vector_search embedFn dist db query repo_name limit)
          (fulltext_search db query repo_name limit),
        e.file_path = rv.file_path ∧ e.chunk_id = rv.chunk_id ∧
        e.combined_score = rv.similarity_score ∧
        e.search_type = some "vector") ∧
    (∀ rf ∈ fulltext_search db query repo_name limit,
      (∀ rv ∈ vector_search embedFn dist db query repo_name limit,
        ¬(rv.file_path = rf.file_path ∧ rv.chunk_id = rf.chunk_id)) →
      ∃ e ∈ hybridMerged (vector_search embedFn dist db query repo_name limit)
          (fulltext_search db query repo_name limit),
        e.file_path = rf.file_path ∧ e.chunk_id = rf.chunk_id ∧
        e.combined_score = some (rf.relevance_score.getD 0 / 10) ∧
        e.search_type = some "fulltext") ∧
    ((hybridMerged (vector_search embedFn dist db query repo_name limit)
        (fulltext_search db query repo_name limit)).map pairkey).Nodup ∧
    (∀ e ∈ hybridMerged (vector_search embedFn dist db query repo_name limit)
        (fulltext_search db query repo_name limit),
      (∃ rv ∈ vector_search embedFn dist db query repo_name limit,
        e.file_path = rv.file_path ∧ e.chunk_id = rv.chunk_id) ∨
      (∃ rf ∈ fulltext_search db query repo_name limit,
        e.file_path = rf.file_path ∧ e.chunk_id = rf.chunk_id)) := by
  have hvp := vector_search_pairkey_nodup embedFn dist db query repo_name
    limit hpairs
  have hfp := fulltext_search_pairkey_nodup db query repo_name limit hpairs
  have hvc := vector_search_colon_free embedFn dist db query repo_name limit
    hcolon
  have hfc := fulltext_search_colon_free db query repo_name limit hcolon
  have hv : ((vector_search embedFn dist db query repo_name limit).map
      rkey).Nodup := rkey_nodup_of_pairkey _ hvp hvc
  have hf : ((fulltext_search db query repo_name limit).map rkey).Nodup :=
    rkey_nodup_of_pairkey _ hfp hfc
  refine ⟨rfl, ?_, ?_, ?_, ?_, ?_, ?_⟩
  · have hs := sortBy_pairwise
      (fun a b => decide (a.combined_score.getD 0 ≥ b.combined_score.getD 0))
      (fun a b => by
        rcases le_total (a.combined_score.getD 0) (b.combined_score.getD 0)
          with h | h
        · right; simpa using h
        · left; simpa using h)
      (fun a b c hab hbc => by
        simp only [decide_eq_true_eq, ge_iff_le] at hab hbc ⊢
        exact le_trans hbc hab)
      (hybridMerged (vector_search embedFn dist db query repo_name limit)
        (fulltext_search db query repo_name limit))
    have htake := List.Pairwise.sublist (List.take_sublist limit _) hs
    refine htake.imp ?_
    intro a b hab
    simpa using hab
  · intro rv hrv rf hrf hfp' hcid'
    have hkey : rkey rf = rkey rv := by
      rw [rkey, rkey, skey, skey, ← hfp', ← hcid']
    have hffind : (fulltext_search db query repo_name limit).find?
        (keyMatch (rkey rv)) = some rf := by
      rw [← hkey]
      exact find?_rkey_self _ hf rf hrf
    have hvfind : (vector_search embedFn dist db query repo_name limit).find?
        (keyMatch (rkey rv)) = some rv := find?_rkey_self _ hv rv hrv
    have hlook := hybridMerged_lookup _ _ hv hf (rkey rv)
    rw [hffind, hvfind] at hlook
    have hlook' : dlookup (rkey rv)
        (addFulltext
          (addVector [] (vector_search embedFn dist db query repo_name limit))
          (fulltext_search db query repo_name limit)) =
        some (htag (vtag rv) rf) := hlook
    exact ⟨htag (vtag rv) rf, mem_hybridMerged_of_dlookup _ _ _ _ hlook',
      rfl, rfl, rfl, rfl⟩
  · intro rv hrv hnone
    have hffind : (fulltext_search db query repo_name limit).find?
        (keyMatch (rkey rv)) = none := by
      rw [List.find?_eq_none]
      intro rf hrf
      simp only [keyMatch, beq_iff_eq]
      intro hk
      obtain ⟨hfp', hcid'⟩ := skey_inj (hfc rf hrf) (hvc rv hrv) hk
      exact hnone rf hrf ⟨hfp'.symm, hcid'.symm⟩
    have hvfind : (vector_search embedFn dist db query repo_name limit).find?
        (keyMatch (rkey rv)) = some rv := find?_rkey_self _ hv rv hrv
    have hlook := hybridMerged_lookup _ _ hv hf (rkey rv)
    rw [hffind, hvfind] at hlook
    have hlook' : dlookup (rkey rv)
        (addFulltext
          (addVector [] (vector_search embedFn dist db query repo_name limit))
          (fulltext_search db query repo_name limit)) =
        some (vtag rv) := hlook
    exact ⟨vtag rv, mem_hybridMerged_of_dlookup _ _ _ _ hlook',
      rfl, rfl, rfl, rfl⟩
  · intro rf hrf hnone
    have hvfind : (vector_search embedFn dist db query repo_name limit).find?
        (keyMatch (rkey rf)) = none := by
      rw [List.find?_eq_none]
      intro rv hrv
      simp only [keyMatch, beq_iff_eq]
      intro hk
      obtain ⟨hfp', hcid'⟩ := skey_inj (hvc rv hrv) (hfc rf hrf) hk
      exact hnone rv hrv ⟨hfp', hcid'⟩
    have hffind : (fulltext_search db query repo_name limit).find?
        (keyMatch (rkey rf)) = some rf := find?_rkey_self _ hf rf hrf
    have hlook := hybridMerged_lookup _ _ hv hf (rkey rf)
    rw [hffind, hvfind] at hlook
    have hlook' : dlookup (rkey rf)
        (addFulltext
          (addVector [] (vector_search embedFn dist db query repo_name limit))
          (fulltext_search db query repo_name limit)) =
        some (ftag rf) := hlook
    exact ⟨ftag rf, mem_hybridMerged_of_dlookup _ _ _ _ hlook',
      rfl, rfl, rfl, rfl⟩
  · have hD : dwf (addFulltext
        (addVector [] (vector_search embedFn dist db query repo_name limit))
        (fulltext_search db query repo_name limit)) :=
      dwf_addFulltext _ _ (dwf_addVector _ [] (by intro p hp; cases hp))
    have hk : ((addFulltext
        (addVector [] (vector_search embedFn dist db query repo_name limit))
        (fulltext_search db query repo_name limit)).map Prod.fst).Nodup :=
      dkeys_nodup_addFulltext _ _ (dkeys_nodup_addVector _ [] (by simp))
    have hvr : ((hybridMerged
        (vector_search embedFn dist db query repo_name limit)
        (fulltext_search db query repo_name limit)).map rkey).Nodup := by
      rw [hybridMerged, List.map_map]
      have he : (addFulltext
          (addVector [] (vector_search embedFn dist db query repo_name limit))
          (fulltext_search db query repo_name limit)).map
            (rkey ∘ fun p => p.2) =
          (addFulltext
            (addVector []
              (vector_search embedFn dist db query repo_name limit))
            (fulltext_search db query repo_name limit)).map Prod.fst :=
        List.map_congr_left (fun p hp => hD p hp)
      rw [he]
      exact hk
    have he2 : (hybridMerged
        (vector_search embedFn dist db query repo_name limit)
        (fulltext_search db query repo_name limit)).map rkey =
        ((hybridMerged
          (vector_search embedFn dist db query repo_name limit)
          (fulltext_search db query repo_name limit)).map pairkey).map
          (fun p => skey p.1 p.2) := by
      rw [List.map_map]
      rfl
    rw [he2] at hvr
    exact List.Nodup.of_map _ hvr
  · intro e he
    obtain ⟨k, hlk⟩ := dlookup_of_mem_hybridMerged _ _ e he
    have hlook := hybridMerged_lookup _ _ hv hf k
    rw [hlk] at hlook
    cases hft : (fulltext_search db query repo_name limit).find?
        (keyMatch k) with
    | some f =>
      cases hvf : (vector_search embedFn dist db query repo_name limit).find?
          (keyMatch k) with
      | some v =>
        rw [hft, hvf] at hlook
        have he' : e = htag (vtag v) f := Option.some.inj hlook
        left
        refine ⟨v, List.mem_of_find?_eq_some hvf, ?_, ?_⟩
        · rw [he']
          rfl
        · rw [he']
          rfl
      | none =>
        rw [hft, hvf] at hlook
        have he' : e = ftag f := Option.some.inj hlook
        right
        refine ⟨f, List.mem_of_find?_eq_some hft, ?_, ?_⟩
        · rw [he']
          rfl
        · rw [he']
          rfl
    | none =>
      cases hvf : (vector_search embedFn dist db query repo_name limit).find?
          (keyMatch k) with
      | some v =>
        rw [hft, hvf] at hlook
        have he' : e = vtag v := Option.some.inj hlook
        left
        refine ⟨v, List.mem_of_find?_eq_some hvf, ?_, ?_⟩
        · rw [he']
          rfl
        · rw [he']
          rfl
      | none =>
        rw [hft, hvf] at hlook
        exact Option.noConfusion hlook

/-- The vector-search view of the witness row `frowA` for the query
`"TODO"`. -/
def hres0 : SearchResult :=
  { file_path := "t.py", chunk_id := "chunk_0", content := "do TODO now",
    full_content := some "do TODO now", metadata := wMeta,
    similarity_score := some (1 - wDist (wEmbed "TODO") frowA.embedding),
    relevance_score := none, combined_score := none, search_type := none }

/-- Witness for claim C1 on a corpus where the chunk is found by both
searches: the merged entry carries the averaged score and the "hybrid"
tag. -/
theorem hybrid_search_spec_witness :
    ∃ e ∈ hybridMerged
        (vector_search wEmbed wDist [frowA] "TODO" "r" 5)
        (fulltext_search [frowA] "TODO" "r" 5),
      e.file_path = hres0.file_path ∧ e.chunk_id = hres0.chunk_id ∧
      e.combined_score = some ((hres0.similarity_score.getD 0 +
        fres0.relevance_score.getD 0 / 10) / 2) ∧
      e.search_type = some "hybrid" :=
  (hybrid_search_spec wEmbed wDist [frowA] "TODO" "r" 5 (by decide)
      (by decide)).2.2.1 hres0 (by exact List.mem_cons_self _ _) fres0
    (by exact List.mem_cons_self _ _) rfl rfl

/-! ## The tools: `CodeIndexerTool._run`, `CodeSearchTool._run`, and the
RAG context assembly (`RAGQueryTool._run`) -/

/-- The dict returned by `CodeIndexerTool._run`. Keys a branch does not set
are `none`. -/
structure IndexerResponse where
  success : Bool
  message : Option String
  error : Option String
  existing_stats : Option RepoStats
  indexed_files : Nat
  total_chunks : Nat
  reindexed : Option Bool
deriving Repr, DecidableEq

/-- `CodeIndexerTool._run`: unless `force_reindex`, a repository whose
stats already show chunks is reported as already indexed and nothing runs;
otherwise `index_repository` runs. -/
def code_indexer_run (embedFn : String → List ℚ) (db : DB) (rd : RepoData)
    (force_reindex : Bool) : DB × IndexerResponse :=
  if force_reindex = false ∧
      (get_repository_stats db rd.repo_name).total_chunks > 0 then
    (db,
     { success := true
       message := some ("Repository '" ++ rd.repo_name ++ "' already indexed")
       error := none
       existing_stats := some (get_repository_stats db rd.repo_name)
       indexed_files := (get_repository_stats db rd.repo_name).total_files
       total_chunks := (get_repository_stats db rd.repo_name).total_chunks
       reindexed := some false })
  else
    let res := index_repository embedFn db rd
    (res.1,
     if res.2.success then
       { success := true
         message := some ("Successfully indexed repository '" ++
           rd.repo_name ++ "'")
         error := none
         existing_stats := none
         indexed_files := res.2.indexed_files
         total_chunks := res.2.total_chunks
         reindexed := some force_reindex }
     else
       { success := false
         message := none
         error := some "Failed to index repository"
         existing_stats := none
         indexed_files := 0
         total_chunks := 0
         reindexed := none })

/-- Claim C10: when the repository's stats already show `total_chunks > 0`
and `force_reindex` is false, the indexing tool leaves the store untouched
(the whole table, hence every repository's corpus, is returned unchanged)
and reports success with the existing stats and `reindexed = false`. -/
theorem code_indexer_no_reindex (embedFn : String → List ℚ) (db : DB)
    (rd : RepoData)
    (h : (get_repository_stats db rd.repo_name).total_chunks > 0) :
    code_indexer_run embedFn db rd false =
      (db,
       { success := true
         message := some ("Repository '" ++ rd.repo_name ++
           "' already indexed")
         error := none
         existing_stats := some (get_repository_stats db rd.repo_name)
         indexed_files := (get_repository_stats db rd.repo_name).total_files
         total_chunks := (get_repository_stats db rd.repo_name).total_chunks
         reindexed := some false }) := by
  rw [code_indexer_run, if_pos ⟨rfl, h⟩]

/-- Witness for claim C10 on a one-row store. -/
theorem code_indexer_no_reindex_witness :
    code_indexer_run wEmbed [vrowA]
        { repo_name := "r", github_url := "u", files := [] } false =
      ([vrowA],
       { success := true
         message := some "Repository 'r' already indexed"
         error := none
         existing_stats := some
           { total_chunks := 1, total_files := 1, avg_chunk_size := 0 }
         indexed_files := 1
         total_chunks := 1
         reindexed := some false }) :=
  code_indexer_no_reindex wEmbed [vrowA]
    { repo_name := "r", github_url := "u", files := [] } (by decide)

/-- A result dict as post-processed by `CodeSearchTool._run`. -/
structure ProcessedResult where
  file_path : String
  chunk_id : String
  content : String
  full_content : String
  metadata : ChunkMetadata
  search_type : String
  similarity_score : Option ℚ
  relevance_score : Option ℚ
  combined_score : Option ℚ
deriving Repr, DecidableEq

/-- One result as post-processed by `CodeSearchTool._run`: `content` is
re-truncated at 500 characters, and `full_content` is set from
`result['content']` — the value the search already truncated — not from
the search's own `full_content` key. -/
def processResult (search_type_arg : String) (r : SearchResult) :
    ProcessedResult :=
  { file_path := r.file_path
    chunk_id := r.chunk_id
    content := if r.content.length > 500 then pySlice r.content 500 ++ "..."
      else r.content
    full_content := r.content
    metadata := r.metadata
    search_type := r.search_type.getD search_type_arg
    similarity_score := r.similarity_score
    relevance_score := r.relevance_score
    combined_score := r.combined_score }

/-- `CodeSearchTool._run` in hybrid mode: search, then post-process. -/
def code_search_hybrid (embedFn : String → List ℚ)
    (dist : List ℚ → List ℚ → ℚ) (db : DB) (query repo_name : String)
    (limit : Nat) : List ProcessedResult :=
  (hybrid_search embedFn dist db query repo_name limit).map
    (processResult "hybrid")

/-- The up-to-5 chunks whose `full_content` the RAG answerer concatenates
into its context (`RAGQueryTool._run`: hybrid search with limit 8, then
`relevant_chunks[:5]`, each contributing `chunk['full_content']`). -/
def rag_context_chunks (embedFn : String → List ℚ)
    (dist : List ℚ → List ℚ → ℚ) (db : DB) (question repo_name : String) :
    List ProcessedResult :=
  (code_search_hybrid embedFn dist db question repo_name 8).take 5

/-- A stored chunk of 1001 characters — longer than the 1000-character
truncation threshold of `vector_search`. -/
def bigContent : String := String.mk (List.replicate 1001 'a')

def bugRow : CodeEmbedding :=
  { repo_name := "r", repo_url := "u", file_path := "big.py",
    chunk_id := "chunk_0", content := bigContent, embedding := [],
    chunk_metadata := wMeta }

set_option maxRecDepth 30000 in
/-- Claim C9 (code bug, evaluated at the failing input): for a chunk whose
stored content has 1001 characters, the `full_content` that reaches the RAG
context is the 1000-character truncation plus `"..."` that `vector_search`
put into the `content` key — `CodeSearchTool._run` rebuilds `full_content`
from `result['content']` instead of `result['full_content']` — and that
value differs from the persisted chunk content. -/
theorem rag_full_content_bug :
    (rag_context_chunks wEmbed wDist [bugRow] "q" "r").map
        (fun p => p.full_content) =
      [pySlice bugRow.content 1000 ++ "..."] ∧
    pySlice bugRow.content 1000 ++ "..." ≠ bugRow.content := by
  have h1 : bugRow.content.length = 1001 := by
    show (List.replicate 1001 'a').length = 1001
    rw [List.length_replicate]
  have hlen : bugRow.content.length > 1000 := by
    rw [h1]
    decide
  have hcont : pyContains bugRow.content "q" = false := by
    rw [pyContains, decide_eq_false_iff_not]
    intro hinf
    have hq : 'q' ∈ bugRow.content.data :=
      hinf.subset (List.mem_singleton.mpr rfl)
    have hq' : 'q' ∈ List.replicate 1001 'a' := hq
    rw [List.mem_replicate] at hq'
    exact absurd hq'.2 (by decide)
  have hft : fulltext_search [bugRow] "q" "r" 8 = [] := by
    simp only [fulltext_search, List.filter_cons, hcont, Bool.and_false]
    rfl
  constructor
  · simp only [rag_context_chunks, code_search_hybrid, hybrid_search]
    rw [hft]
    show [if bugRow.content.length > 1000 then
        pySlice bugRow.content 1000 ++ "..." else bugRow.content] =
      [pySlice bugRow.content 1000 ++ "..."]
    rw [if_pos hlen]
  · intro h
    have hcl := congrArg String.length h
    have hl : (pySlice bugRow.content 1000 ++ "...").length = 1003 := by
      show (bugRow.content.data.take 1000 ++ "...".data).length = 1003
      rw [List.length_append, List.length_take]
      show min 1000 (List.replicate 1001 'a').length + 3 = 1003
      rw [List.length_replicate]
      norm_num
    rw [hl, h1] at hcl
    exact absurd hcl (by decide)

end RepoReader
